import Mathlib

/-!
# CORAL ordinal-regression core: a shallow embedding

This file embeds the three numeric functions of the CORAL implementation
recipe (`label_to_levels`, the two rank-loss formulations `loss_fn1` and
`loss_fn2`, and the thresholded prediction rule `predicted_labels`) as Lean
functions over the real numbers, and proves the specification's claims
about them.

Batches (2-D tensors) are embedded as lists of rows; `torch.sum(..., dim=1)`
is the sum over one row, `torch.mean` over a 1-D tensor of length `n` is
the sum divided by `n`.
-/

open Real

/-- `torch.sigmoid`: `sigmoid x = 1 / (1 + exp (-x))`. -/
noncomputable def sigmoid (x : ℝ) : ℝ := 1 / (1 + Real.exp (-x))

/-- `F.logsigmoid`: the (numerically stable) evaluation of `log (sigmoid x)`.
Mathematically it is exactly `log ∘ sigmoid`. -/
noncomputable def logsigmoid (x : ℝ) : ℝ := Real.log (sigmoid x)

/-- `label_to_levels(label, num_classes)` from the notebook:
`[1]*label + [0]*(num_classes - 1 - label)`.  Natural-number subtraction
truncates at `0` exactly as Python's `[0]*n` yields `[]` for negative `n`. -/
def label_to_levels (label num_classes : ℕ) : List ℝ :=
  List.replicate label 1 ++ List.replicate (num_classes - 1 - label) 0

/-- One row of `loss_fn1`'s tensor expression: the value
`-sum((log(sigmoid(s))*v + log(1 - sigmoid(s))*(1-v))*imp)` for a single
example with score row `s` and level row `v`. -/
noncomputable def loss1_row (imp s v : List ℝ) : ℝ :=
  -(List.zipWith (· * ·)
      (List.zipWith
        (fun si vi => Real.log (sigmoid si) * vi
          + Real.log (1 - sigmoid si) * (1 - vi)) s v)
      imp).sum

/-- `loss_fn1(logits, levels, imp)` from the notebook: the naive rank loss
`torch.mean(-torch.sum((log(sigmoid(logits))*levels
  + log(1-sigmoid(logits))*(1-levels))*imp, dim=1))`. -/
noncomputable def loss_fn1 (logits levels : List (List ℝ)) (imp : List ℝ) : ℝ :=
  (List.zipWith (loss1_row imp) logits levels).sum
    / (List.zipWith (loss1_row imp) logits levels).length

/-- One row of `loss_fn2`'s tensor expression: the value
`-sum((logsigmoid(s)*v + (logsigmoid(s) - s)*(1-v))*imp)` for a single
example with score row `s` and level row `v`. -/
noncomputable def loss2_row (imp s v : List ℝ) : ℝ :=
  -(List.zipWith (· * ·)
      (List.zipWith
        (fun si vi => logsigmoid si * vi
          + (logsigmoid si - si) * (1 - vi)) s v)
      imp).sum

/-- `loss_fn2(logits, levels, imp)` from the notebook: the stable rank loss
`torch.mean(-torch.sum((logsigmoid(logits)*levels
  + (logsigmoid(logits) - logits)*(1-levels))*imp, dim=1))`. -/
noncomputable def loss_fn2 (logits levels : List (List ℝ)) (imp : List ℝ) : ℝ :=
  (List.zipWith (loss2_row imp) logits levels).sum
    / (List.zipWith (loss2_row imp) logits levels).length

/-- `predict_levels = probas > 0.5; predicted_labels = torch.sum(predict_levels, dim=1)`
restricted to one row: the number of entries strictly above `0.5`. -/
noncomputable def predicted_label (p : List ℝ) : ℕ :=
  (p.map (fun x => if (0.5 : ℝ) < x then 1 else 0)).sum

/-- The batch form of the prediction rule: one predicted label per row of
the probability matrix. -/
noncomputable def predicted_labels (probas : List (List ℝ)) : List ℕ :=
  probas.map predicted_label

/-! ### Basic facts about `sigmoid` and `logsigmoid` -/

lemma sigmoid_pos (x : ℝ) : 0 < sigmoid x := by
  unfold sigmoid; positivity

lemma sigmoid_lt_one (x : ℝ) : sigmoid x < 1 := by
  unfold sigmoid
  rw [div_lt_one (by positivity)]
  linarith [Real.exp_pos (-x)]

lemma one_sub_sigmoid (x : ℝ) :
    1 - sigmoid x = Real.exp (-x) / (1 + Real.exp (-x)) := by
  unfold sigmoid
  have h : (0:ℝ) < 1 + Real.exp (-x) := by positivity
  field_simp

lemma logsigmoid_eq_neg_log (x : ℝ) :
    logsigmoid x = -Real.log (1 + Real.exp (-x)) := by
  unfold logsigmoid sigmoid
  rw [one_div, Real.log_inv]

/-- The stable identity: `log (1 - sigmoid x) = logsigmoid x - x`. -/
lemma log_one_sub_sigmoid (x : ℝ) :
    Real.log (1 - sigmoid x) = logsigmoid x - x := by
  rw [one_sub_sigmoid, Real.log_div (Real.exp_ne_zero _) (by positivity),
    Real.log_exp, logsigmoid_eq_neg_log]
  ring

lemma logsigmoid_neg (x : ℝ) : logsigmoid x < 0 :=
  Real.log_neg (sigmoid_pos x) (sigmoid_lt_one x)

lemma logsigmoid_sub_self_neg (x : ℝ) : logsigmoid x - x < 0 := by
  rw [← log_one_sub_sigmoid]
  exact Real.log_neg (by linarith [sigmoid_lt_one x]) (by linarith [sigmoid_pos x])

/-- `-logsigmoid x` is the softplus of `-x`. -/
lemma logsigmoid_eq_neg_softplus (x : ℝ) :
    logsigmoid x = -Real.log (1 + Real.exp (-x)) := logsigmoid_eq_neg_log x

lemma logsigmoid_sub_self (x : ℝ) :
    logsigmoid x - x = -Real.log (1 + Real.exp x) := by
  rw [← log_one_sub_sigmoid, one_sub_sigmoid]
  have h1 : (0:ℝ) < 1 + Real.exp (-x) := by positivity
  have h2 : (0:ℝ) < 1 + Real.exp x := by positivity
  rw [Real.log_div (Real.exp_ne_zero _) (ne_of_gt h1)]
  have h3 : 1 + Real.exp (-x) = Real.exp (-x) * (1 + Real.exp x) := by
    rw [mul_add, mul_one, ← Real.exp_add]
    simp [add_comm]
  rw [h3, Real.log_mul (Real.exp_ne_zero _) (ne_of_gt h2), Real.log_exp]
  ring

/-! ### Structure of `label_to_levels` -/

lemma label_to_levels_length {y K : ℕ} (h : y ≤ K - 1) :
    (label_to_levels y K).length = K - 1 := by
  simp only [label_to_levels, List.length_append, List.length_replicate]
  omega

lemma label_to_levels_getD (y K i : ℕ) (hi : i < K - 1) (hy : y ≤ K - 1) :
    (label_to_levels y K).getD i 0 = if i < y then (1:ℝ) else 0 := by
  unfold label_to_levels
  by_cases hcase : i < y
  · rw [List.getD_append _ _ _ _ (by simpa using hcase), if_pos hcase,
      List.getD_eq_getElem _ _ (by simpa using hcase), List.getElem_replicate]
  · rw [if_neg hcase]
    have hilen : i < (List.replicate y (1:ℝ) ++ List.replicate (K - 1 - y) (0:ℝ)).length := by
      simp only [List.length_append, List.length_replicate]
      omega
    rw [List.getD_eq_getElem _ _ hilen, List.getElem_append_right (by simpa using hcase),
      List.getElem_replicate]

lemma label_to_levels_sum {y K : ℕ} (hy : y ≤ K - 1) :
    (label_to_levels y K).sum = (y : ℝ) := by
  simp [label_to_levels, List.sum_replicate]

/-- The value of `loss_fn2` on the one-example batch with score `0`, level `1`
and the (invalid, silently accepted) negative weight `-1`. -/
lemma loss_fn2_neg_weight : loss_fn2 [[0]] [[1]] [-1] = Real.log (1 / 2) := by
  have h : sigmoid 0 = 1 / 2 := by
    unfold sigmoid
    rw [neg_zero, Real.exp_zero]
    norm_num
  simp [loss_fn2, loss2_row, logsigmoid, h]

/-- C3: for `K ≥ 2` and `0 ≤ y ≤ K-1`, `label_to_levels y K` has length
exactly `K-1` and entry `i` equal to `1` when `i < y` and `0` otherwise. -/
theorem label_to_levels_contract (K y : ℕ) (hK : 2 ≤ K) (hy : y ≤ K - 1) :
    (label_to_levels y K).length = K - 1 ∧
      ∀ i, i < K - 1 → (label_to_levels y K).getD i 0 = if i < y then (1:ℝ) else 0 :=
  ⟨label_to_levels_length hy, fun i hi => label_to_levels_getD y K i hi hy⟩

/-- Witness for C3 at `K = 5`, `y = 2`. -/
theorem label_to_levels_contract_witness :
    2 ≤ 5 ∧ 2 ≤ 5 - 1 ∧
      ((label_to_levels 2 5).length = 5 - 1 ∧
        ∀ i, i < 5 - 1 → (label_to_levels 2 5).getD i 0 = if i < 2 then (1:ℝ) else 0) :=
  ⟨by norm_num, by norm_num, label_to_levels_contract 5 2 (by norm_num) (by norm_num)⟩

/-- C4: for `K ≥ 2` and `0 ≤ y ≤ K-1`, the output of `label_to_levels` has
length `K-1`, is monotonically non-increasing from index 0, sums to `y`, and
at the boundaries `y = 0` / `y = K-1` is all zeros / all ones. -/
theorem label_to_levels_invariants (K y : ℕ) (hK : 2 ≤ K) (hy : y ≤ K - 1) :
    (label_to_levels y K).length = K - 1 ∧
      (∀ i j, i ≤ j → j < K - 1 →
        (label_to_levels y K).getD j 0 ≤ (label_to_levels y K).getD i 0) ∧
      (label_to_levels y K).sum = (y : ℝ) ∧
      (y = 0 → label_to_levels y K = List.replicate (K - 1) 0) ∧
      (y = K - 1 → label_to_levels y K = List.replicate (K - 1) 1) := by
  refine ⟨label_to_levels_length hy, ?_, label_to_levels_sum hy, ?_, ?_⟩
  · intro i j hij hj
    rw [label_to_levels_getD y K i (lt_of_le_of_lt hij hj) hy,
      label_to_levels_getD y K j hj hy]
    by_cases hjy : j < y
    · rw [if_pos hjy, if_pos (lt_of_le_of_lt hij hjy)]
    · rw [if_neg hjy]
      split <;> norm_num
  · intro h
    subst h
    simp [label_to_levels]
  · intro h
    subst h
    simp [label_to_levels]

/-- Witness for C4 at `K = 4`, `y = 3`. -/
theorem label_to_levels_invariants_witness :
    2 ≤ 4 ∧ 3 ≤ 4 - 1 ∧
      ((label_to_levels 3 4).length = 4 - 1 ∧
        (∀ i j, i ≤ j → j < 4 - 1 →
          (label_to_levels 3 4).getD j 0 ≤ (label_to_levels 3 4).getD i 0) ∧
        (label_to_levels 3 4).sum = ((3:ℕ) : ℝ) ∧
        ((3:ℕ) = 0 → label_to_levels 3 4 = List.replicate (4 - 1) 0) ∧
        ((3:ℕ) = 4 - 1 → label_to_levels 3 4 = List.replicate (4 - 1) 1)) :=
  ⟨by norm_num, by norm_num, label_to_levels_invariants 4 3 (by norm_num) (by norm_num)⟩

/-- C6: decoding an exact threshold vector recovers the label: for `K ≥ 2`
and `0 ≤ y ≤ K-1`, the Rank Decoder applied to `label_to_levels y K`
(reading `1` as probability `1.0` and `0` as `0.0`) returns `y`. -/
theorem round_trip_encode_decode (K y : ℕ) (hK : 2 ≤ K) (hy : y ≤ K - 1) :
    predicted_label (label_to_levels y K) = y := by
  unfold predicted_label label_to_levels
  rw [List.map_append, List.map_replicate, List.map_replicate, List.sum_append,
    List.sum_replicate, List.sum_replicate]
  rw [if_pos (by norm_num : (0.5:ℝ) < 1), if_neg (by norm_num : ¬ (0.5:ℝ) < 0)]
  simp

/-- Witness for C6 at `K = 5`, `y = 3`. -/
theorem round_trip_encode_decode_witness :
    2 ≤ 5 ∧ 3 ≤ 5 - 1 ∧ predicted_label (label_to_levels 3 5) = 3 :=
  ⟨by norm_num, by norm_num, round_trip_encode_decode 5 3 (by norm_num) (by norm_num)⟩

/-- C7 counterexample: the code performs no input validation.  With the
out-of-range label `y = 7` for `K = 5`, `label_to_levels` silently returns a
length-7 vector (not an error, and not of length `K-1`); with the negative
importance weight `-1`, `loss_fn2` silently returns a value (a negative one)
rather than rejecting the input. -/
theorem no_input_validation_counterexample :
    label_to_levels 7 5 = [1, 1, 1, 1, 1, 1, 1] ∧
      (label_to_levels 7 5).length ≠ 5 - 1 ∧
      loss_fn2 [[0]] [[1]] [-1] = Real.log (1 / 2) := by
  refine ⟨?_, ?_, loss_fn2_neg_weight⟩
  · simp [label_to_levels, List.replicate]
  · simp [label_to_levels]

/-- C7 amended: neither function validates its input.  For any label
`y ≥ K-1` (in particular any out-of-range label), `label_to_levels` returns
the all-ones list of length `y` instead of failing, and `loss_fn2` accepts a
negative importance weight and returns an (even negative) value instead of
failing. -/
theorem no_input_validation (y K : ℕ) (h : K - 1 ≤ y) :
    label_to_levels y K = List.replicate y 1 ∧ loss_fn2 [[0]] [[1]] [-1] < 0 := by
  constructor
  · unfold label_to_levels
    rw [Nat.sub_eq_zero_of_le h]
    simp
  · rw [loss_fn2_neg_weight]
    exact Real.log_neg (by norm_num) (by norm_num)

/-- Witness for the amended C7 at `y = 7`, `K = 5`. -/
theorem no_input_validation_witness :
    5 - 1 ≤ 7 ∧
      (label_to_levels 7 5 = List.replicate 7 1 ∧ loss_fn2 [[0]] [[1]] [-1] < 0) :=
  ⟨by norm_num, no_input_validation 7 5 (by norm_num)⟩

/-! ### Equivalence of the naive and the stable loss -/

/-- The two per-row loss expressions are the same function, by the stable
identity `log (1 - sigmoid x) = logsigmoid x - x`. -/
lemma loss1_row_eq_loss2_row : loss1_row = loss2_row := by
  have hterm :
      (fun si vi : ℝ => Real.log (sigmoid si) * vi
          + Real.log (1 - sigmoid si) * (1 - vi))
        = (fun si vi : ℝ => logsigmoid si * vi + (logsigmoid si - si) * (1 - vi)) := by
    funext si vi
    rw [log_one_sub_sigmoid, logsigmoid]
  funext imp s v
  unfold loss1_row loss2_row
  rw [hterm]

/-- C2: the naive loss `loss_fn1` (via `log(sigmoid(s))` and
`log(1 - sigmoid(s))`) and the stable loss `loss_fn2` (via `logsigmoid`)
agree on every batch, because `log (1 - sigmoid x) = logsigmoid x - x` for
every real `x`.  (Over the reals `sigmoid x` always lies strictly between
`0` and `1`, so the naive logarithms are defined everywhere.) -/
theorem stable_loss_equivalence (logits levels : List (List ℝ)) (imp : List ℝ) :
    loss_fn1 logits levels imp = loss_fn2 logits levels imp ∧
      (∀ x : ℝ, 0 < sigmoid x ∧ sigmoid x < 1) ∧
      ∀ x : ℝ, Real.log (1 - sigmoid x) = logsigmoid x - x := by
  refine ⟨?_, fun x => ⟨sigmoid_pos x, sigmoid_lt_one x⟩, log_one_sub_sigmoid⟩
  unfold loss_fn1 loss_fn2
  rw [loss1_row_eq_loss2_row]

/-! ### Non-negativity of the loss -/

lemma sum_nonpos_of_mem {l : List ℝ} (h : ∀ x ∈ l, x ≤ 0) : l.sum ≤ 0 := by
  induction l with
  | nil => simp
  | cons a as ih =>
    simp only [List.sum_cons]
    have ha := h a (List.mem_cons_self a as)
    have has := ih (fun x hx => h x (List.mem_cons_of_mem _ hx))
    linarith

lemma exists_of_mem_zipWith {α β γ : Type} {f : α → β → γ} :
    ∀ {l₁ : List α} {l₂ : List β} {x : γ}, x ∈ List.zipWith f l₁ l₂ →
      ∃ a ∈ l₁, ∃ b ∈ l₂, x = f a b := by
  intro l₁
  induction l₁ with
  | nil => intro l₂ x hx; simp at hx
  | cons a as ih =>
    intro l₂ x hx
    cases l₂ with
    | nil => simp at hx
    | cons b bs =>
      rw [List.zipWith_cons_cons, List.mem_cons] at hx
      rcases hx with h | h
      · exact ⟨a, List.mem_cons_self a as, b, List.mem_cons_self b bs, h⟩
      · obtain ⟨a', ha', b', hb', hx⟩ := ih h
        exact ⟨a', List.mem_cons_of_mem _ ha', b', List.mem_cons_of_mem _ hb', hx⟩

/-- A single row's stable loss is non-negative when the levels are 0/1 and
the weights non-negative. -/
lemma loss2_row_nonneg {imp s v : List ℝ} (hv : ∀ x ∈ v, x = 0 ∨ x = 1)
    (hw : ∀ w ∈ imp, 0 ≤ w) : 0 ≤ loss2_row imp s v := by
  unfold loss2_row
  rw [neg_nonneg]
  apply sum_nonpos_of_mem
  intro x hx
  obtain ⟨t, ht, w, hwmem, rfl⟩ := exists_of_mem_zipWith hx
  obtain ⟨si, _, vi, hvi, rfl⟩ := exists_of_mem_zipWith ht
  refine mul_nonpos_of_nonpos_of_nonneg ?_ (hw w hwmem)
  rcases hv vi hvi with rfl | rfl
  · have := logsigmoid_sub_self_neg si
    nlinarith
  · have := logsigmoid_neg si
    nlinarith

/-- C10: on any batch whose levels have 0/1 entries and whose importance
weights are non-negative, `loss_fn2` returns a non-negative value, because
`logsigmoid x < 0` and `logsigmoid x - x < 0` for every real `x`, so every
weighted per-threshold contribution is non-positive before the negation. -/
theorem loss_fn2_nonneg (logits levels : List (List ℝ)) (imp : List ℝ)
    (hv : ∀ row ∈ levels, ∀ x ∈ row, x = 0 ∨ x = 1)
    (hw : ∀ w ∈ imp, 0 ≤ w) :
    0 ≤ loss_fn2 logits levels imp ∧
      ∀ x : ℝ, logsigmoid x < 0 ∧ logsigmoid x - x < 0 := by
  refine ⟨?_, fun x => ⟨logsigmoid_neg x, logsigmoid_sub_self_neg x⟩⟩
  unfold loss_fn2
  apply div_nonneg _ (Nat.cast_nonneg _)
  apply List.sum_nonneg
  intro r hr
  obtain ⟨srow, _, vrow, hvrow, rfl⟩ := exists_of_mem_zipWith hr
  exact loss2_row_nonneg (hv vrow hvrow) hw

/-! ### The Rank Loss contract (spec formula) -/

/-- The Rank Loss exactly as the specification words it: per-threshold
contribution
`c[i] = w[i] * (logsigmoid s[i] * v[i] + (logsigmoid s[i] - s[i]) * (1 - v[i]))`,
summed over the `K-1` thresholds, averaged over the `n` batch rows, negated. -/
noncomputable def rankLossSpec (logits levels : List (List ℝ)) (imp : List ℝ)
    (n K : ℕ) : ℝ :=
  -((∑ j ∈ Finset.range n, ∑ i ∈ Finset.range (K - 1),
      imp.getD i 0 *
        (logsigmoid ((logits.getD j []).getD i 0) * (levels.getD j []).getD i 0
          + (logsigmoid ((logits.getD j []).getD i 0) - (logits.getD j []).getD i 0)
            * (1 - (levels.getD j []).getD i 0))) / n)

/-- A `zipWith` sum over two lists of a common length is the corresponding
indexed sum. -/
lemma sum_zipWith_eq {α β : Type} (h : α → β → ℝ) (da : α) (db : β) :
    ∀ (n : ℕ) (s : List α) (v : List β), s.length = n → v.length = n →
      (List.zipWith h s v).sum = ∑ i ∈ Finset.range n, h (s.getD i da) (v.getD i db) := by
  intro n
  induction n with
  | zero =>
    intro s v hs hv
    rw [List.length_eq_zero] at hs hv
    subst hs; subst hv
    simp
  | succ n ih =>
    intro s v hs hv
    cases s with
    | nil => simp at hs
    | cons a as =>
      cases v with
      | nil => simp at hv
      | cons b bs =>
        rw [List.zipWith_cons_cons, List.sum_cons, Finset.sum_range_succ']
        simp only [List.getD_cons_succ, List.getD_cons_zero]
        rw [ih as bs (by simpa using hs) (by simpa using hv)]
        ring

/-- One row's stable loss, rewritten as the spec's indexed sum of
per-threshold contributions. -/
lemma loss2_row_eq_sum {imp s v : List ℝ} {K : ℕ} (hs : s.length = K - 1)
    (hv : v.length = K - 1) (hw : imp.length = K - 1) :
    loss2_row imp s v = -(∑ i ∈ Finset.range (K - 1),
      imp.getD i 0 * (logsigmoid (s.getD i 0) * v.getD i 0
        + (logsigmoid (s.getD i 0) - s.getD i 0) * (1 - v.getD i 0))) := by
  unfold loss2_row
  have hlen : (List.zipWith
      (fun si vi => logsigmoid si * vi + (logsigmoid si - si) * (1 - vi)) s v).length
        = K - 1 := by
    rw [List.length_zipWith, hs, hv, min_self]
  rw [sum_zipWith_eq (· * ·) 0 0 (K - 1) _ imp hlen hw]
  congr 1
  apply Finset.sum_congr rfl
  intro i hi
  rw [Finset.mem_range] at hi
  rw [List.getD_eq_getElem _ _ (by rw [hlen]; exact hi), List.getElem_zipWith,
    ← List.getD_eq_getElem s 0 (by rw [hs]; exact hi),
    ← List.getD_eq_getElem v 0 (by rw [hv]; exact hi)]
  ring

/-- C1: on any batch of `n` score rows and `n` level rows of width `K-1`,
with a weight vector of length `K-1`, the stable Rank Loss `loss_fn2`
returns exactly the spec's formula: the weighted per-threshold
contributions summed over the `K-1` thresholds, then averaged over the
batch, then negated. -/
theorem rank_loss_contract (logits levels : List (List ℝ)) (imp : List ℝ) (n K : ℕ)
    (hL : logits.length = n) (hV : levels.length = n)
    (hrowL : ∀ r ∈ logits, r.length = K - 1) (hrowV : ∀ r ∈ levels, r.length = K - 1)
    (hw : imp.length = K - 1) :
    loss_fn2 logits levels imp = rankLossSpec logits levels imp n K := by
  unfold loss_fn2 rankLossSpec
  rw [sum_zipWith_eq (loss2_row imp) [] [] n logits levels hL hV,
    List.length_zipWith, hL, hV, min_self, ← neg_div, ← Finset.sum_neg_distrib]
  congr 1
  apply Finset.sum_congr rfl
  intro j hj
  rw [Finset.mem_range] at hj
  have hmemL : logits.getD j [] ∈ logits := by
    rw [List.getD_eq_getElem _ _ (by rw [hL]; exact hj)]
    exact List.getElem_mem _
  have hmemV : levels.getD j [] ∈ levels := by
    rw [List.getD_eq_getElem _ _ (by rw [hV]; exact hj)]
    exact List.getElem_mem _
  exact loss2_row_eq_sum (hrowL _ hmemL) (hrowV _ hmemV) hw

/-- Witness for C1 on a 2-example batch with `K = 3`. -/
theorem rank_loss_contract_witness :
    ([[(1:ℝ), -1], [0, 2]].length = 2) ∧ ([[(1:ℝ), 0], [1, 1]].length = 2) ∧
      (∀ r ∈ [[(1:ℝ), -1], [0, 2]], r.length = 3 - 1) ∧
      (∀ r ∈ [[(1:ℝ), 0], [1, 1]], r.length = 3 - 1) ∧
      ([(2:ℝ), 3].length = 3 - 1) ∧
      loss_fn2 [[(1:ℝ), -1], [0, 2]] [[(1:ℝ), 0], [1, 1]] [2, 3]
        = rankLossSpec [[(1:ℝ), -1], [0, 2]] [[(1:ℝ), 0], [1, 1]] [2, 3] 2 3 :=
  ⟨by norm_num, by norm_num, by norm_num, by norm_num, by norm_num,
    rank_loss_contract [[(1:ℝ), -1], [0, 2]] [[(1:ℝ), 0], [1, 1]] [2, 3] 2 3
      (by norm_num) (by norm_num) (by norm_num) (by norm_num) (by norm_num)⟩

/-! ### The Rank Decoder contract -/

lemma sum_map_eq_sum_range {α : Type} (f : α → ℕ) (d : α) :
    ∀ l : List α, (l.map f).sum = ∑ i ∈ Finset.range l.length, f (l.getD i d) := by
  intro l
  induction l with
  | nil => simp
  | cons a as ih =>
    rw [List.map_cons, List.sum_cons, List.length_cons, Finset.sum_range_succ']
    simp only [List.getD_cons_succ, List.getD_cons_zero]
    rw [ih]
    ring

lemma predicted_label_le_length (p : List ℝ) : predicted_label p ≤ p.length := by
  unfold predicted_label
  induction p with
  | nil => simp
  | cons a as ih =>
    simp only [List.map_cons, List.sum_cons, List.length_cons]
    split <;> omega

/-- C5: on a probability vector of length `K-1`, the Rank Decoder returns
the number of indices whose entry strictly exceeds `0.5` (an entry equal to
`0.5` does not count), and the result always lies in `[0, K-1]`. -/
theorem rank_decoder_contract (p : List ℝ) (K : ℕ) (hlen : p.length = K - 1)
    (hp : ∀ x ∈ p, 0 ≤ x ∧ x ≤ 1) :
    predicted_label p
        = (Finset.univ.filter (fun i : Fin p.length => (0.5:ℝ) < p.get i)).card ∧
      predicted_label p ≤ K - 1 := by
  constructor
  · rw [Finset.card_filter]
    unfold predicted_label
    rw [sum_map_eq_sum_range _ 0 p, ← Fin.sum_univ_eq_sum_range
      (fun i => if (0.5:ℝ) < p.getD i 0 then 1 else 0) p.length]
    apply Finset.sum_congr rfl
    intro i _
    rw [List.get_eq_getElem, List.getD_eq_getElem p 0 i.isLt]
  · rw [← hlen]
    exact predicted_label_le_length p

/-- Witness for C5 on `p = [0.9, 0.5, 0.2]`, `K = 4`: the decoder returns
`1` (the entry equal to `0.5` is not counted). -/
theorem rank_decoder_contract_witness :
    ([(0.9:ℝ), 0.5, 0.2].length = 4 - 1) ∧
      (∀ x ∈ [(0.9:ℝ), 0.5, 0.2], 0 ≤ x ∧ x ≤ 1) ∧
      (predicted_label [(0.9:ℝ), 0.5, 0.2]
          = (Finset.univ.filter
              (fun i : Fin ([(0.9:ℝ), 0.5, 0.2].length) =>
                (0.5:ℝ) < [(0.9:ℝ), 0.5, 0.2].get i)).card ∧
        predicted_label [(0.9:ℝ), 0.5, 0.2] ≤ 4 - 1) :=
  ⟨by norm_num, by norm_num,
    rank_decoder_contract [(0.9:ℝ), 0.5, 0.2] 4 (by norm_num) (by norm_num)⟩

/-! ### Per-example independence (batch permutation invariance) -/

/-- A `zipWith` over two lists of a common length, written as a map over the
index range. -/
lemma zipWith_eq_map_range {α β γ : Type} (f : α → β → γ) (da : α) (db : β) :
    ∀ (l₁ : List α) (l₂ : List β), l₁.length = l₂.length →
      List.zipWith f l₁ l₂
        = (List.range l₁.length).map (fun j => f (l₁.getD j da) (l₂.getD j db)) := by
  intro l₁
  induction l₁ with
  | nil => intro l₂ h; simp
  | cons a as ih =>
    intro l₂ h
    cases l₂ with
    | nil => simp at h
    | cons b bs =>
      rw [List.zipWith_cons_cons, List.length_cons, List.range_succ_eq_map,
        List.map_cons, List.map_map]
      congr 1
      rw [ih bs (by simpa using h)]
      apply List.map_congr_left
      intro j _
      simp [Function.comp, List.getD_cons_succ]

/-- Selecting batch rows through a permuted index list leaves the sum and
the length of the per-row loss values unchanged. -/
lemma loss_rows_perm (F : List ℝ → List ℝ → ℝ) (logits levels : List (List ℝ))
    (is : List ℕ) (hperm : is.Perm (List.range logits.length))
    (hlen : levels.length = logits.length) :
    (List.zipWith F (is.map fun j => logits.getD j [])
        (is.map fun j => levels.getD j [])).sum
      = (List.zipWith F logits levels).sum ∧
    (List.zipWith F (is.map fun j => logits.getD j [])
        (is.map fun j => levels.getD j [])).length
      = (List.zipWith F logits levels).length := by
  have h1 : List.zipWith F (is.map fun j => logits.getD j [])
      (is.map fun j => levels.getD j [])
        = is.map (fun j => F (logits.getD j []) (levels.getD j [])) := by
    rw [List.zipWith_map_left, List.zipWith_map_right, List.zipWith_same]
  have h2 : List.zipWith F logits levels
      = (List.range logits.length).map
          (fun j => F (logits.getD j []) (levels.getD j [])) :=
    zipWith_eq_map_range F [] [] logits levels hlen.symm
  refine ⟨?_, ?_⟩
  · rw [h1, h2]
    exact (hperm.map _).sum_eq
  · rw [h1, h2]
    simp [hperm.length_eq]

/-- C9: applying one and the same permutation (given as an index list `is`
that is a permutation of `0..n-1`) to the rows of the logits and levels
matrices leaves both loss values unchanged, and permutes the per-example
predicted labels by exactly that permutation. -/
theorem batch_permutation_invariance (logits levels probas : List (List ℝ))
    (imp : List ℝ) (is : List ℕ)
    (hperm : is.Perm (List.range logits.length))
    (hlen : levels.length = logits.length)
    (hlenp : probas.length = logits.length) :
    loss_fn2 (is.map fun j => logits.getD j []) (is.map fun j => levels.getD j []) imp
        = loss_fn2 logits levels imp ∧
      loss_fn1 (is.map fun j => logits.getD j []) (is.map fun j => levels.getD j []) imp
        = loss_fn1 logits levels imp ∧
      predicted_labels (is.map fun j => probas.getD j [])
        = is.map fun j => (predicted_labels probas).getD j 0 := by
  obtain ⟨hs2, hl2⟩ := loss_rows_perm (loss2_row imp) logits levels is hperm hlen
  obtain ⟨hs1, hl1⟩ := loss_rows_perm (loss1_row imp) logits levels is hperm hlen
  refine ⟨?_, ?_, ?_⟩
  · unfold loss_fn2
    rw [hs2, hl2]
  · unfold loss_fn1
    rw [hs1, hl1]
  · unfold predicted_labels
    rw [List.map_map]
    apply List.map_congr_left
    intro j hj
    have hjlt : j < probas.length := by
      rw [hlenp]
      exact List.mem_range.mp (hperm.subset hj)
    simp only [Function.comp]
    rw [List.getD_eq_getElem (probas.map predicted_label) 0 (by simpa using hjlt),
      List.getElem_map, ← List.getD_eq_getElem probas [] hjlt]

/-- Witness for C9: swapping the two examples of a 2-example batch. -/
theorem batch_permutation_invariance_witness :
    ([1, 0].Perm (List.range [[(1:ℝ)], [2]].length)) ∧
      ([[(0:ℝ)], [1]].length = [[(1:ℝ)], [2]].length) ∧
      ([[(0.6:ℝ)], [0.2]].length = [[(1:ℝ)], [2]].length) ∧
      (loss_fn2 ([1, 0].map fun j => [[(1:ℝ)], [2]].getD j [])
            ([1, 0].map fun j => [[(0:ℝ)], [1]].getD j []) [1]
          = loss_fn2 [[(1:ℝ)], [2]] [[(0:ℝ)], [1]] [1] ∧
        loss_fn1 ([1, 0].map fun j => [[(1:ℝ)], [2]].getD j [])
            ([1, 0].map fun j => [[(0:ℝ)], [1]].getD j []) [1]
          = loss_fn1 [[(1:ℝ)], [2]] [[(0:ℝ)], [1]] [1] ∧
        predicted_labels ([1, 0].map fun j => [[(0.6:ℝ)], [0.2]].getD j [])
          = [1, 0].map fun j => (predicted_labels [[(0.6:ℝ)], [0.2]]).getD j 0) :=
  ⟨by decide, by norm_num, by norm_num,
    batch_permutation_invariance [[(1:ℝ)], [2]] [[(0:ℝ)], [1]] [[(0.6:ℝ)], [0.2]]
      [1] [1, 0] (by decide) (by norm_num) (by norm_num)⟩

/-! ### The reference batch: numeric evaluation

Rational two-sided bounds on `exp` at the points the reference batch needs,
obtained from the degree-8 Taylor remainder bound `Real.exp_bound` and the
high-precision bounds on `exp 1` / `exp (-1)`. -/

lemma exp_series_lo {x : ℝ} (hx : |x| ≤ 1) :
    1 + x + x^2/2 + x^3/6 + x^4/24 + x^5/120 + x^6/720 + x^7/5040 - |x|^8 / 35840
      ≤ Real.exp x := by
  have h := Real.exp_bound hx (n := 8) (by norm_num)
  rw [abs_sub_le_iff] at h
  have h2 := h.2
  have hsum : ∑ m ∈ Finset.range 8, x ^ m / (m.factorial : ℝ)
      = 1 + x + x^2/2 + x^3/6 + x^4/24 + x^5/120 + x^6/720 + x^7/5040 := by
    rw [Finset.sum_range_succ, Finset.sum_range_succ, Finset.sum_range_succ,
      Finset.sum_range_succ, Finset.sum_range_succ, Finset.sum_range_succ,
      Finset.sum_range_succ, Finset.sum_range_one]
    norm_num [Nat.factorial]
  rw [hsum] at h2
  norm_num [Nat.factorial] at h2
  linarith

lemma exp_series_hi {x : ℝ} (hx : |x| ≤ 1) :
    Real.exp x
      ≤ 1 + x + x^2/2 + x^3/6 + x^4/24 + x^5/120 + x^6/720 + x^7/5040
        + |x|^8 / 35840 := by
  have h := Real.exp_bound hx (n := 8) (by norm_num)
  rw [abs_sub_le_iff] at h
  have h1 := h.1
  have hsum : ∑ m ∈ Finset.range 8, x ^ m / (m.factorial : ℝ)
      = 1 + x + x^2/2 + x^3/6 + x^4/24 + x^5/120 + x^6/720 + x^7/5040 := by
    rw [Finset.sum_range_succ, Finset.sum_range_succ, Finset.sum_range_succ,
      Finset.sum_range_succ, Finset.sum_range_succ, Finset.sum_range_succ,
      Finset.sum_range_succ, Finset.sum_range_one]
    norm_num [Nat.factorial]
  rw [hsum] at h1
  norm_num [Nat.factorial] at h1
  linarith

lemma exp_neg_01_bounds :
    (0.904837418 : ℝ) < Real.exp (-0.1) ∧ Real.exp (-0.1) < 0.904837419 := by
  have habs : |(-0.1 : ℝ)| = 0.1 := by
    rw [abs_of_nonpos (by norm_num)]
    norm_num
  have hlo := exp_series_lo (x := (-0.1:ℝ)) (by rw [habs]; norm_num)
  have hhi := exp_series_hi (x := (-0.1:ℝ)) (by rw [habs]; norm_num)
  rw [habs] at hlo hhi
  refine ⟨lt_of_lt_of_le ?_ hlo, lt_of_le_of_lt hhi ?_⟩ <;> norm_num

lemma exp_neg_03_bounds :
    (0.740818217 : ℝ) < Real.exp (-0.3) ∧ Real.exp (-0.3) < 0.740818221 := by
  have habs : |(-0.3 : ℝ)| = 0.3 := by
    rw [abs_of_nonpos (by norm_num)]
    norm_num
  have hlo := exp_series_lo (x := (-0.3:ℝ)) (by rw [habs]; norm_num)
  have hhi := exp_series_hi (x := (-0.3:ℝ)) (by rw [habs]; norm_num)
  rw [habs] at hlo hhi
  refine ⟨lt_of_lt_of_le ?_ hlo, lt_of_le_of_lt hhi ?_⟩ <;> norm_num

lemma exp_neg_05_bounds :
    (0.606530458 : ℝ) < Real.exp (-0.5) ∧ Real.exp (-0.5) < 0.606530677 := by
  have habs : |(-0.5 : ℝ)| = 0.5 := by
    rw [abs_of_nonpos (by norm_num)]
    norm_num
  have hlo := exp_series_lo (x := (-0.5:ℝ)) (by rw [habs]; norm_num)
  have hhi := exp_series_hi (x := (-0.5:ℝ)) (by rw [habs]; norm_num)
  rw [habs] at hlo hhi
  refine ⟨lt_of_lt_of_le ?_ hlo, lt_of_le_of_lt hhi ?_⟩ <;> norm_num

lemma exp_neg_06_bounds :
    (0.548810777 : ℝ) < Real.exp (-0.6) ∧ Real.exp (-0.6) < 0.548811715 := by
  have habs : |(-0.6 : ℝ)| = 0.6 := by
    rw [abs_of_nonpos (by norm_num)]
    norm_num
  have hlo := exp_series_lo (x := (-0.6:ℝ)) (by rw [habs]; norm_num)
  have hhi := exp_series_hi (x := (-0.6:ℝ)) (by rw [habs]; norm_num)
  rw [habs] at hlo hhi
  refine ⟨lt_of_lt_of_le ?_ hlo, lt_of_le_of_lt hhi ?_⟩ <;> norm_num

lemma exp_neg_07_bounds :
    (0.496582369 : ℝ) < Real.exp (-0.7) ∧ Real.exp (-0.7) < 0.496585587 := by
  have habs : |(-0.7 : ℝ)| = 0.7 := by
    rw [abs_of_nonpos (by norm_num)]
    norm_num
  have hlo := exp_series_lo (x := (-0.7:ℝ)) (by rw [habs]; norm_num)
  have hhi := exp_series_hi (x := (-0.7:ℝ)) (by rw [habs]; norm_num)
  rw [habs] at hlo hhi
  refine ⟨lt_of_lt_of_le ?_ hlo, lt_of_le_of_lt hhi ?_⟩ <;> norm_num

lemma exp_neg_08_bounds :
    (0.449320464 : ℝ) < Real.exp (-0.8) ∧ Real.exp (-0.8) < 0.449329827 := by
  have habs : |(-0.8 : ℝ)| = 0.8 := by
    rw [abs_of_nonpos (by norm_num)]
    norm_num
  have hlo := exp_series_lo (x := (-0.8:ℝ)) (by rw [habs]; norm_num)
  have hhi := exp_series_hi (x := (-0.8:ℝ)) (by rw [habs]; norm_num)
  rw [habs] at hlo hhi
  refine ⟨lt_of_lt_of_le ?_ hlo, lt_of_le_of_lt hhi ?_⟩ <;> norm_num

lemma exp_neg_09_bounds :
    (0.406547951 : ℝ) < Real.exp (-0.9) ∧ Real.exp (-0.9) < 0.406571974 := by
  have habs : |(-0.9 : ℝ)| = 0.9 := by
    rw [abs_of_nonpos (by norm_num)]
    norm_num
  have hlo := exp_series_lo (x := (-0.9:ℝ)) (by rw [habs]; norm_num)
  have hhi := exp_series_hi (x := (-0.9:ℝ)) (by rw [habs]; norm_num)
  rw [habs] at hlo hhi
  refine ⟨lt_of_lt_of_le ?_ hlo, lt_of_le_of_lt hhi ?_⟩ <;> norm_num

lemma exp_0073_bounds :
    (1.075730536 : ℝ) < Real.exp 0.073 ∧ Real.exp 0.073 < 1.075730537 := by
  have habs : |(0.073 : ℝ)| = 0.073 := by
    rw [abs_of_nonneg (by norm_num)]
  have hlo := exp_series_lo (x := (0.073:ℝ)) (by rw [habs]; norm_num)
  have hhi := exp_series_hi (x := (0.073:ℝ)) (by rw [habs]; norm_num)
  rw [habs] at hlo hhi
  refine ⟨lt_of_lt_of_le ?_ hlo, lt_of_le_of_lt hhi ?_⟩ <;> norm_num

lemma exp_0079_bounds :
    (1.082204322 : ℝ) < Real.exp 0.079 ∧ Real.exp 0.079 < 1.082204323 := by
  have habs : |(0.079 : ℝ)| = 0.079 := by
    rw [abs_of_nonneg (by norm_num)]
  have hlo := exp_series_lo (x := (0.079:ℝ)) (by rw [habs]; norm_num)
  have hhi := exp_series_hi (x := (0.079:ℝ)) (by rw [habs]; norm_num)
  rw [habs] at hlo hhi
  refine ⟨lt_of_lt_of_le ?_ hlo, lt_of_le_of_lt hhi ?_⟩ <;> norm_num

lemma exp_neg_2_bounds :
    (0.135335283 : ℝ) < Real.exp (-2) ∧ Real.exp (-2) < 0.135335284 := by
  have h : Real.exp (-2 : ℝ) = Real.exp (-1) * Real.exp (-1) := by
    rw [← Real.exp_add]
    norm_num
  constructor <;> rw [h] <;>
    nlinarith [Real.exp_neg_one_gt_d9, Real.exp_neg_one_lt_d9, Real.exp_pos (-1 : ℝ)]

lemma exp_neg_13_bounds :
    (0.2725317 : ℝ) < Real.exp (-1.3) ∧ Real.exp (-1.3) < 0.2725318 := by
  have h : Real.exp (-1.3 : ℝ) = Real.exp (-1) * Real.exp (-0.3) := by
    rw [← Real.exp_add]
    norm_num
  obtain ⟨hl, hh⟩ := exp_neg_03_bounds
  constructor <;> rw [h] <;>
    nlinarith [Real.exp_neg_one_gt_d9, Real.exp_neg_one_lt_d9,
      Real.exp_pos (-1 : ℝ), Real.exp_pos (-0.3 : ℝ)]

lemma exp_neg_15_bounds :
    (0.2231300 : ℝ) < Real.exp (-1.5) ∧ Real.exp (-1.5) < 0.2231302 := by
  have h : Real.exp (-1.5 : ℝ) = Real.exp (-1) * Real.exp (-0.5) := by
    rw [← Real.exp_add]
    norm_num
  obtain ⟨hl, hh⟩ := exp_neg_05_bounds
  constructor <;> rw [h] <;>
    nlinarith [Real.exp_neg_one_gt_d9, Real.exp_neg_one_lt_d9,
      Real.exp_pos (-1 : ℝ), Real.exp_pos (-0.5 : ℝ)]

lemma exp_neg_16_bounds :
    (0.2018962 : ℝ) < Real.exp (-1.6) ∧ Real.exp (-1.6) < 0.2018966 := by
  have h : Real.exp (-1.6 : ℝ) = Real.exp (-1) * Real.exp (-0.6) := by
    rw [← Real.exp_add]
    norm_num
  obtain ⟨hl, hh⟩ := exp_neg_06_bounds
  constructor <;> rw [h] <;>
    nlinarith [Real.exp_neg_one_gt_d9, Real.exp_neg_one_lt_d9,
      Real.exp_pos (-1 : ℝ), Real.exp_pos (-0.6 : ℝ)]

lemma exp_neg_17_bounds :
    (0.1826824 : ℝ) < Real.exp (-1.7) ∧ Real.exp (-1.7) < 0.1826837 := by
  have h : Real.exp (-1.7 : ℝ) = Real.exp (-1) * Real.exp (-0.7) := by
    rw [← Real.exp_add]
    norm_num
  obtain ⟨hl, hh⟩ := exp_neg_07_bounds
  constructor <;> rw [h] <;>
    nlinarith [Real.exp_neg_one_gt_d9, Real.exp_neg_one_lt_d9,
      Real.exp_pos (-1 : ℝ), Real.exp_pos (-0.7 : ℝ)]

lemma exp_neg_18_bounds :
    (0.1652957 : ℝ) < Real.exp (-1.8) ∧ Real.exp (-1.8) < 0.1652993 := by
  have h : Real.exp (-1.8 : ℝ) = Real.exp (-1) * Real.exp (-0.8) := by
    rw [← Real.exp_add]
    norm_num
  obtain ⟨hl, hh⟩ := exp_neg_08_bounds
  constructor <;> rw [h] <;>
    nlinarith [Real.exp_neg_one_gt_d9, Real.exp_neg_one_lt_d9,
      Real.exp_pos (-1 : ℝ), Real.exp_pos (-0.8 : ℝ)]

lemma exp_neg_19_bounds :
    (0.1495606 : ℝ) < Real.exp (-1.9) ∧ Real.exp (-1.9) < 0.1495695 := by
  have h : Real.exp (-1.9 : ℝ) = Real.exp (-1) * Real.exp (-0.9) := by
    rw [← Real.exp_add]
    norm_num
  obtain ⟨hl, hh⟩ := exp_neg_09_bounds
  constructor <;> rw [h] <;>
    nlinarith [Real.exp_neg_one_gt_d9, Real.exp_neg_one_lt_d9,
      Real.exp_pos (-1 : ℝ), Real.exp_pos (-0.9 : ℝ)]

lemma exp_neg_21_bounds :
    (0.1224564 : ℝ) < Real.exp (-2.1) ∧ Real.exp (-2.1) < 0.1224565 := by
  have h : Real.exp (-2.1 : ℝ) = Real.exp (-2) * Real.exp (-0.1) := by
    rw [← Real.exp_add]
    norm_num
  obtain ⟨hl2, hh2⟩ := exp_neg_2_bounds
  obtain ⟨hl, hh⟩ := exp_neg_01_bounds
  constructor <;> rw [h] <;>
    nlinarith [Real.exp_pos (-2 : ℝ), Real.exp_pos (-0.1 : ℝ)]

lemma exp_2_bounds :
    (7.38905609 : ℝ) < Real.exp 2 ∧ Real.exp 2 < 7.38905611 := by
  have h : Real.exp (2 : ℝ) = Real.exp 1 * Real.exp 1 := by
    rw [← Real.exp_add]
    norm_num
  constructor <;> rw [h] <;>
    nlinarith [Real.exp_one_gt_d9, Real.exp_one_lt_d9, Real.exp_pos (1 : ℝ)]

lemma exp_2073_ub : Real.exp (2.073 : ℝ) < 7.9486333 := by
  have h : Real.exp (2.073 : ℝ) = Real.exp 2 * Real.exp 0.073 := by
    rw [← Real.exp_add]
    norm_num
  obtain ⟨h2l, h2h⟩ := exp_2_bounds
  obtain ⟨h3l, h3h⟩ := exp_0073_bounds
  rw [h]
  nlinarith [Real.exp_pos (2 : ℝ), Real.exp_pos (0.073 : ℝ)]

lemma exp_2079_lb : (7.9964684 : ℝ) < Real.exp (2.079 : ℝ) := by
  have h : Real.exp (2.079 : ℝ) = Real.exp 2 * Real.exp 0.079 := by
    rw [← Real.exp_add]
    norm_num
  obtain ⟨h2l, h2h⟩ := exp_2_bounds
  obtain ⟨h9l, h9h⟩ := exp_0079_bounds
  rw [h]
  nlinarith [Real.exp_pos (2 : ℝ), Real.exp_pos (0.079 : ℝ)]

/-- The notebook's reference batch of logits. -/
noncomputable def refLogits : List (List ℝ) :=
  [[2.1, 1.8, -2.1, -1.8], [1.9, -1, -1.5, -1.3], [1.9, 1.8, 1.7, 1.6]]

/-- The notebook's levels for the labels `[2, 1, 4]` against `K = 5`,
built with `label_to_levels` and stacked. -/
noncomputable def refLevels : List (List ℝ) :=
  [label_to_levels 2 5, label_to_levels 1 5, label_to_levels 4 5]

/-- The notebook's uniform importance weights `torch.ones(5 - 1)`. -/
noncomputable def refImp : List ℝ := [1, 1, 1, 1]

/-- The reference loss, as a combination of softplus values. -/
lemma ref_loss2_eq :
    loss_fn2 refLogits refLevels refImp
      = (2 * Real.log (1 + Real.exp (-2.1)) + 3 * Real.log (1 + Real.exp (-1.8))
          + 2 * Real.log (1 + Real.exp (-1.9)) + Real.log (1 + Real.exp (-1))
          + Real.log (1 + Real.exp (-1.5)) + Real.log (1 + Real.exp (-1.3))
          + Real.log (1 + Real.exp (-1.7)) + Real.log (1 + Real.exp (-1.6))) / 3 := by
  have hv2 : label_to_levels 2 5 = [1, 1, 0, 0] := rfl
  have hv1 : label_to_levels 1 5 = [1, 0, 0, 0] := rfl
  have hv4 : label_to_levels 4 5 = [1, 1, 1, 1] := rfl
  unfold loss_fn2 refLogits refLevels refImp loss2_row
  rw [hv2, hv1, hv4]
  simp only [List.zipWith_cons_cons, List.zipWith_nil_left, List.zipWith_nil_right,
    List.sum_cons, List.sum_nil, List.length_cons, List.length_nil]
  rw [logsigmoid_sub_self ((-2.1 : ℝ)), logsigmoid_sub_self ((-1.8 : ℝ)),
    logsigmoid_sub_self ((-1 : ℝ)), logsigmoid_sub_self ((-1.5 : ℝ)),
    logsigmoid_sub_self ((-1.3 : ℝ))]
  simp only [logsigmoid_eq_neg_log]
  norm_num
  ring_nf

/-- The sum of the softplus values, folded into one logarithm. -/
lemma ref_log_prod :
    Real.log ((1 + Real.exp (-2.1))^2 * ((1 + Real.exp (-1.8))^3
        * ((1 + Real.exp (-1.9))^2 * ((1 + Real.exp (-1)) * ((1 + Real.exp (-1.5))
        * ((1 + Real.exp (-1.3)) * ((1 + Real.exp (-1.7)) * (1 + Real.exp (-1.6)))))))))
      = 2 * Real.log (1 + Real.exp (-2.1)) + 3 * Real.log (1 + Real.exp (-1.8))
        + 2 * Real.log (1 + Real.exp (-1.9)) + Real.log (1 + Real.exp (-1))
        + Real.log (1 + Real.exp (-1.5)) + Real.log (1 + Real.exp (-1.3))
        + Real.log (1 + Real.exp (-1.7)) + Real.log (1 + Real.exp (-1.6)) := by
  rw [Real.log_mul (by positivity) (by positivity),
    Real.log_mul (by positivity) (by positivity),
    Real.log_mul (by positivity) (by positivity),
    Real.log_mul (by positivity) (by positivity),
    Real.log_mul (by positivity) (by positivity),
    Real.log_mul (by positivity) (by positivity),
    Real.log_mul (by positivity) (by positivity),
    Real.log_pow, Real.log_pow, Real.log_pow]
  push_cast
  ring

/-- C8: on the notebook's reference 3-example batch with `K = 5`, labels
`[2, 1, 4]` encoded by `label_to_levels` and uniform all-ones weights, the
naive and the stable loss return the same scalar, and that scalar is
`0.692` to within `0.001`. -/
theorem reference_batch_loss :
    loss_fn1 refLogits refLevels refImp = loss_fn2 refLogits refLevels refImp ∧
      |loss_fn2 refLogits refLevels refImp - 0.692| < 0.001 := by
  constructor
  · unfold loss_fn1 loss_fn2
    rw [loss1_row_eq_loss2_row]
  · have hPpos : (0:ℝ) < (1 + Real.exp (-2.1))^2 * ((1 + Real.exp (-1.8))^3
        * ((1 + Real.exp (-1.9))^2 * ((1 + Real.exp (-1)) * ((1 + Real.exp (-1.5))
        * ((1 + Real.exp (-1.3)) * ((1 + Real.exp (-1.7)) * (1 + Real.exp (-1.6)))))))) := by
      positivity
    obtain ⟨h21l, h21h⟩ := exp_neg_21_bounds
    obtain ⟨h18l, h18h⟩ := exp_neg_18_bounds
    obtain ⟨h19l, h19h⟩ := exp_neg_19_bounds
    have h10l := Real.exp_neg_one_gt_d9
    have h10h := Real.exp_neg_one_lt_d9
    obtain ⟨h15l, h15h⟩ := exp_neg_15_bounds
    obtain ⟨h13l, h13h⟩ := exp_neg_13_bounds
    obtain ⟨h17l, h17h⟩ := exp_neg_17_bounds
    obtain ⟨h16l, h16h⟩ := exp_neg_16_bounds
    have hPlo : ((1 + 0.1224564 : ℝ))^2 * ((1 + 0.1652957)^3 * ((1 + 0.1495606)^2
        * ((1 + 0.3678794) * ((1 + 0.2231300) * ((1 + 0.2725317) * ((1 + 0.1826824)
        * (1 + 0.2018962)))))))
          ≤ (1 + Real.exp (-2.1))^2 * ((1 + Real.exp (-1.8))^3
            * ((1 + Real.exp (-1.9))^2 * ((1 + Real.exp (-1)) * ((1 + Real.exp (-1.5))
            * ((1 + Real.exp (-1.3)) * ((1 + Real.exp (-1.7)) * (1 + Real.exp (-1.6)))))))) := by
      gcongr <;> linarith
    have hPhi : (1 + Real.exp (-2.1))^2 * ((1 + Real.exp (-1.8))^3
        * ((1 + Real.exp (-1.9))^2 * ((1 + Real.exp (-1)) * ((1 + Real.exp (-1.5))
        * ((1 + Real.exp (-1.3)) * ((1 + Real.exp (-1.7)) * (1 + Real.exp (-1.6))))))))
          ≤ ((1 + 0.1224565 : ℝ))^2 * ((1 + 0.1652993)^3 * ((1 + 0.1495695)^2
            * ((1 + 0.3678795) * ((1 + 0.2231302) * ((1 + 0.2725318) * ((1 + 0.1826837)
            * (1 + 0.2018966))))))) := by
      gcongr <;> linarith [Real.exp_pos (-2.1 : ℝ), Real.exp_pos (-1.8 : ℝ),
        Real.exp_pos (-1.9 : ℝ), Real.exp_pos (-1 : ℝ), Real.exp_pos (-1.5 : ℝ),
        Real.exp_pos (-1.3 : ℝ), Real.exp_pos (-1.7 : ℝ), Real.exp_pos (-1.6 : ℝ)]
    have hloglo : (2.073 : ℝ) < Real.log ((1 + Real.exp (-2.1))^2 * ((1 + Real.exp (-1.8))^3
        * ((1 + Real.exp (-1.9))^2 * ((1 + Real.exp (-1)) * ((1 + Real.exp (-1.5))
        * ((1 + Real.exp (-1.3)) * ((1 + Real.exp (-1.7)) * (1 + Real.exp (-1.6)))))))) ) := by
      rw [Real.lt_log_iff_exp_lt hPpos]
      have hcmp : (7.9486333 : ℝ)
          < ((1 + 0.1224564 : ℝ))^2 * ((1 + 0.1652957)^3 * ((1 + 0.1495606)^2
            * ((1 + 0.3678794) * ((1 + 0.2231300) * ((1 + 0.2725317) * ((1 + 0.1826824)
            * (1 + 0.2018962))))))) := by
        norm_num
      linarith [exp_2073_ub]
    have hloghi : Real.log ((1 + Real.exp (-2.1))^2 * ((1 + Real.exp (-1.8))^3
        * ((1 + Real.exp (-1.9))^2 * ((1 + Real.exp (-1)) * ((1 + Real.exp (-1.5))
        * ((1 + Real.exp (-1.3)) * ((1 + Real.exp (-1.7)) * (1 + Real.exp (-1.6)))))))) )
          < (2.079 : ℝ) := by
      rw [Real.log_lt_iff_lt_exp hPpos]
      have hcmp : ((1 + 0.1224565 : ℝ))^2 * ((1 + 0.1652993)^3 * ((1 + 0.1495695)^2
          * ((1 + 0.3678795) * ((1 + 0.2231302) * ((1 + 0.2725318) * ((1 + 0.1826837)
          * (1 + 0.2018966)))))))
            < (7.9964684 : ℝ) := by
        norm_num
      linarith [exp_2079_lb]
    rw [ref_loss2_eq, ← ref_log_prod, abs_lt]
    constructor <;> linarith

/-- Witness for C10 on the batch `logits = [[1, -2]]`, `levels = [[1, 0]]`,
`imp = [1, 2]`. -/
theorem loss_fn2_nonneg_witness :
    (∀ row ∈ [[(1:ℝ), 0]], ∀ x ∈ row, x = 0 ∨ x = 1) ∧
      (∀ w ∈ [(1:ℝ), 2], 0 ≤ w) ∧
      (0 ≤ loss_fn2 [[1, -2]] [[1, 0]] [1, 2] ∧
        ∀ x : ℝ, logsigmoid x < 0 ∧ logsigmoid x - x < 0) :=
  ⟨by norm_num, by norm_num,
    loss_fn2_nonneg [[1, -2]] [[1, 0]] [1, 2] (by norm_num) (by norm_num)⟩
